import Mathlib

/-!
# Verification of the Danbooru-Trends comparison engine

Shallow embedding of `compare_last_two.py`: tag tables are association
lists built with Python-dict insertion semantics, Python `int()` is
modelled by `pyInt`, Python floats by `ℚ`, Python's stable `sorted`
by `List.insertionSort`, and `datetime.strptime(s, "%Y-%m-%d")`
together with `date.weekday()` by `strptimeYMD` and `dateWeekday`.
-/

set_option maxRecDepth 4000

namespace DanbooruTrends

/-- Characters stripped by Python `int()` / `str.strip()` (ASCII whitespace). -/
def pySpace (c : Char) : Bool :=
  c == ' ' || c == '\t' || c == '\n' || c == '\r' || c == '\x0b' || c == '\x0c'

def digitVal (c : Char) : Nat := c.toNat - 48

/-- Digits after the first one: Python `int()` accepts single underscores
between digits (`1_000`), but not leading, trailing or doubled ones. -/
def pyDigitsRest : List Char → Nat → Option Nat
  | [], acc => some acc
  | '_' :: c :: rest, acc =>
      if c.isDigit then pyDigitsRest rest (acc * 10 + digitVal c) else none
  | c :: rest, acc =>
      if c.isDigit then pyDigitsRest rest (acc * 10 + digitVal c) else none

/-- A nonempty digit sequence (with underscore separators) and its value. -/
def pyDigits : List Char → Option Nat
  | [] => none
  | c :: rest => if c.isDigit then pyDigitsRest rest (digitVal c) else none

def pyStripChars (s : List Char) : List Char :=
  ((s.dropWhile pySpace).reverse.dropWhile pySpace).reverse

/-- Model of the Python built-in `int()` applied to a string: strip ASCII
whitespace, then an optional sign followed by a nonempty digit sequence;
`none` models the `ValueError` raised on any other input. -/
def pyInt (s : String) : Option Int :=
  match pyStripChars s.data with
  | '+' :: rest => (pyDigits rest).map (fun n => (n : Int))
  | '-' :: rest => (pyDigits rest).map (fun n => -(n : Int))
  | l => (pyDigits l).map (fun n => (n : Int))

/-- Python dict assignment `d[k] = v`: overwrite in place when the key is
present (keeping its insertion position), else append at the end. -/
def dictInsert (d : List (String × Int)) (k : String) (v : Int) :
    List (String × Int) :=
  if d.any (fun p => p.1 == k) then
    d.map (fun p => if p.1 == k then (k, v) else p)
  else d ++ [(k, v)]

/-- Python dict lookup `d.get(k)`. -/
def dictGet? (d : List (String × Int)) (k : String) : Option Int :=
  (d.find? (fun p => p.1 == k)).map Prod.snd

def TAGS_DIR : String := "tags"

def MIN_COUNT_THRESHOLD : Int := 50

def TOP_COUNT : Nat := 20

/-- `TAG_TYPES` dict literal from the source, in insertion order. -/
def TAG_TYPES : List (String × Int) :=
  [("general", 0), ("artist", 1), ("series", 3), ("character", 4)]

/-- The final assignment `tags[row[0]] = int(row[2])` of the row loop of
`read_tags`: `none` models the `except (IndexError, ValueError)` handler
swallowing a missing column or a failed `int()`. -/
def rowAssign (row : List String) : Option (String × Int) :=
  match row[0]?, row[2]? with
  | some t, some s => (pyInt s).map (fun c => (t, c))
  | _, _ => none

/-- The allow-list guard `row[0] not in allowed_tags` in front of the
assignment, checked only when an allow-list is active. -/
def rowAfterAllow (row : List String) :
    Option (List String) → Option (String × Int)
  | some allowed =>
      (match row[0]? with
      | some t => if allowed.contains t then rowAssign row else none
      | none => none)
  | none => rowAssign row

/-- The whole body of the row loop of `read_tags`: the `(tag, count)`
assignment the row produces, or `none` when the row is skipped — by the
category-id filter (`int(row[1])` is evaluated only when a category id
filter is active), the allow-list filter, or the exception handler. -/
def tryRow (row : List String) :
    Option Int → Option (List String) → Option (String × Int)
  | some tid, allowed_tags =>
      (match row[1]? with
      | some s =>
          match pyInt s with
          | some v => if v = tid then rowAfterAllow row allowed_tags else none
          | none => none
      | none => none)
  | none, allowed_tags => rowAfterAllow row allowed_tags

/-- One iteration of the row loop of `read_tags`: perform the dict
assignment the row produces, if any. -/
def readTagsStep (tag_type_id : Option Int) (allowed_tags : Option (List String))
    (tags : List (String × Int)) (row : List String) : List (String × Int) :=
  match tryRow row tag_type_id allowed_tags with
  | some p => dictInsert tags p.1 p.2
  | none => tags

/-- `read_tags`: the file is `none` when absent (`FileNotFoundError` is
swallowed, yielding the empty table), else its parsed CSV rows. -/
def read_tags (file? : Option (List (List String))) (tag_type_id : Option Int)
    (allowed_tags : Option (List String)) : List (String × Int) :=
  match file? with
  | none => []
  | some rows => rows.foldl (readTagsStep tag_type_id allowed_tags) []

/-- The record appended by the loop body of `calculate_growth` for one
`(tag, new_count)` item of `new_tags`, if any.  Python floats are
modelled exactly in `ℚ`. -/
structure GrowthRecord where
  tag : String
  old : Int
  new : Int
  diff : Int
  percent : ℚ
deriving Repr, DecidableEq

def growthEntry (old_tags : List (String × Int)) (p : String × Int) :
    Option GrowthRecord :=
  match dictGet? old_tags p.1 with
  | some old_count =>
      if MIN_COUNT_THRESHOLD ≤ p.2 ∧ 0 < old_count then
        some ⟨p.1, old_count, p.2, p.2 - old_count,
          ((p.2 : ℚ) - (old_count : ℚ)) / (old_count : ℚ) * 100⟩
      else none
  | none => none

/-- `calculate_growth`: iterate `new_tags.items()` in insertion order,
appending the record (if any) each item's guards let through. -/
def calculate_growth (old_tags new_tags : List (String × Int)) :
    List GrowthRecord :=
  new_tags.foldl
    (fun growth p => growth ++ (growthEntry old_tags p).toList) []

/-- The two sort keys used by `process_comparison`. -/
inductive SortKey where
  | percent
  | diff
deriving Repr, DecidableEq

def keyVal : SortKey → GrowthRecord → ℚ
  | .percent, r => r.percent
  | .diff, r => (r.diff : ℚ)

/-- `a` sorts no later than `b` in the descending order on `k`. -/
def keyRel (k : SortKey) (a b : GrowthRecord) : Prop :=
  keyVal k b ≤ keyVal k a

instance (k : SortKey) : DecidableRel (keyRel k) :=
  fun a b => inferInstanceAs (Decidable (keyVal k b ≤ keyVal k a))

instance (k : SortKey) : IsTotal GrowthRecord (keyRel k) :=
  ⟨fun a b => (le_total (keyVal k b) (keyVal k a)).imp id id⟩

instance (k : SortKey) : IsTrans GrowthRecord (keyRel k) :=
  ⟨fun _ _ _ h1 h2 => le_trans h2 h1⟩

/-- `sorted(records, key=..., reverse=True)[:n]`: Python's `sorted` is a
stable sort, modelled by the (stable) insertion sort on the descending
relation for the chosen key. -/
def top_n (records : List GrowthRecord) (k : SortKey) (n : Nat) :
    List GrowthRecord :=
  (List.insertionSort (keyRel k) records).take n

/-- Index of the last occurrence of `c` in `l`, if any. -/
def lastIdxOf (c : Char) (l : List Char) : Option Nat :=
  (l.foldl
    (fun (acc : Option Nat × Nat) ch =>
      (if ch == c then some acc.2 else acc.1, acc.2 + 1))
    (none, 0)).1

/-- `os.path.splitext(f)[0]` for POSIX paths: drop from the last dot of
the basename on, unless every character of the basename before that dot
is itself a dot. -/
def splitextRoot (l : List Char) : List Char :=
  let sep := match lastIdxOf '/' l with | some i => i + 1 | none => 0
  match lastIdxOf '.' l with
  | none => l
  | some d =>
      if d < sep then l
      else if ((l.drop sep).take (d - sep)).all (fun ch => ch == '.') then l
      else l.take d

def get_display_name (f : String) : String := ⟨splitextRoot f.data⟩

/-- One category's pair of ranked top lists. -/
structure StatPair where
  percent : List GrowthRecord
  diff : List GrowthRecord
deriving Repr, DecidableEq

/-- The JSON object built by `process_comparison`. -/
structure DataEntry where
  date : String
  id : String
  stats : List (String × StatPair)
deriving Repr, DecidableEq

def types_to_process : List String :=
  TAG_TYPES.map Prod.fst ++ ["all", "touhou"]

/-- The `(type_id, allowed)` filter selected for one iteration of the
category loop of `process_comparison`. -/
def typeSelectors (t_type : String) (touhou_whitelist : List String) :
    Option Int × Option (List String) :=
  if t_type = "all" then (none, none)
  else if t_type = "touhou" then (none, some touhou_whitelist)
  else ((TAG_TYPES.find? (fun p => p.1 == t_type)).map Prod.snd, none)

/-- `process_comparison`: the file store is abstracted as a map from path
to parsed rows (`none` = absent file).  `entry_id or new_filename` uses
Python truthiness: an empty-string override also falls back. -/
def process_comparison (fs : String → Option (List (List String)))
    (old_filename new_filename : String) (touhou_whitelist : List String)
    (entry_id : Option String) : DataEntry :=
  let range_label :=
    get_display_name old_filename ++ " to " ++ get_display_name new_filename
  let eid :=
    match entry_id with
    | some s => if s = "" then new_filename else s
    | none => new_filename
  { date := range_label
    id := eid
    stats := types_to_process.map (fun t_type =>
      let sel := typeSelectors t_type touhou_whitelist
      let old_tags :=
        read_tags (fs (TAGS_DIR ++ "/" ++ old_filename)) sel.1 sel.2
      let new_tags :=
        read_tags (fs (TAGS_DIR ++ "/" ++ new_filename)) sel.1 sel.2
      let raw_growth := calculate_growth old_tags new_tags
      (t_type,
        ⟨top_n raw_growth .percent TOP_COUNT,
         top_n raw_growth .diff TOP_COUNT⟩)) }

/-- `generate_daily_comparisons`: one entry per consecutive pair
`(files[i-1], files[i])`, then reversed. -/
def generate_daily_comparisons (fs : String → Option (List (List String)))
    (files : List String) (touhou_whitelist : List String) : List DataEntry :=
  ((files.zip (files.drop 1)).map
    (fun p => process_comparison fs p.1 p.2 touhou_whitelist none)).reverse

/-- A proleptic Gregorian calendar date, as held by `datetime`. -/
structure Date where
  year : Nat
  month : Nat
  day : Nat
deriving Repr, DecidableEq

def isLeap (y : Nat) : Bool :=
  y % 4 == 0 && (y % 100 != 0 || y % 400 == 0)

def daysInMonth (y m : Nat) : Nat :=
  if m = 2 then (if isLeap y then 29 else 28)
  else if m = 4 ∨ m = 6 ∨ m = 9 ∨ m = 11 then 30
  else 31

def daysBeforeMonth (y m : Nat) : Nat :=
  (match m with
   | 2 => 31 | 3 => 59 | 4 => 90 | 5 => 120 | 6 => 151 | 7 => 181
   | 8 => 212 | 9 => 243 | 10 => 273 | 11 => 304 | 12 => 334 | _ => 0) +
  (if 2 < m ∧ isLeap y then 1 else 0)

/-- `date.toordinal()`: day number with 0001-01-01 as day 1. -/
def toordinal (dt : Date) : Nat :=
  365 * (dt.year - 1) + (dt.year - 1) / 4 - (dt.year - 1) / 100 +
    (dt.year - 1) / 400 + daysBeforeMonth dt.year dt.month + dt.day

/-- `date.weekday()`: Monday = 0 .. Sunday = 6 (0001-01-01 is a Monday). -/
def dateWeekday (dt : Date) : Nat := (toordinal dt - 1) % 7

/-- The `%m` field of CPython's `strptime` regex, `1[0-2]|0[1-9]|[1-9]`,
tried in that alternation order; returns the month and the rest. -/
def parseMonth : List Char → Option (Nat × List Char)
  | '1' :: c :: rest =>
      if '0' ≤ c ∧ c ≤ '2' then some (10 + digitVal c, rest)
      else some (1, c :: rest)
  | '0' :: c :: rest =>
      if '1' ≤ c ∧ c ≤ '9' then some (digitVal c, rest) else none
  | c :: rest =>
      if '1' ≤ c ∧ c ≤ '9' then some (digitVal c, rest) else none
  | [] => none

/-- The `%d` field, `3[01]|[12]\d|0[1-9]|[1-9]` in alternation order. -/
def parseDay : List Char → Option (Nat × List Char)
  | '3' :: c :: rest =>
      if c = '0' ∨ c = '1' then some (30 + digitVal c, rest)
      else some (3, c :: rest)
  | '0' :: c :: rest =>
      if '1' ≤ c ∧ c ≤ '9' then some (digitVal c, rest) else none
  | c :: d :: rest =>
      if (c = '1' ∨ c = '2') ∧ d.isDigit then
        some (digitVal c * 10 + digitVal d, rest)
      else if '1' ≤ c ∧ c ≤ '9' then some (digitVal c, d :: rest)
      else none
  | [c] => if '1' ≤ c ∧ c ≤ '9' then some (digitVal c, []) else none
  | [] => none

/-- `datetime.strptime(s, "%Y-%m-%d")`: `%Y` is exactly four digits, the
whole string must be consumed, and the resulting date must be valid
(`datetime` also requires year ≥ 1). -/
def strptimeYMD (s : String) : Option Date :=
  match s.data with
  | y1 :: y2 :: y3 :: y4 :: '-' :: rest =>
      if y1.isDigit ∧ y2.isDigit ∧ y3.isDigit ∧ y4.isDigit then
        let y := ((digitVal y1 * 10 + digitVal y2) * 10 + digitVal y3) * 10 +
          digitVal y4
        match parseMonth rest with
        | some (m, '-' :: rest2) =>
            match parseDay rest2 with
            | some (d, []) =>
                if 1 ≤ y ∧ d ≤ daysInMonth y m then some ⟨y, m, d⟩ else none
            | _ => none
        | _ => none
      else none
  | _ => none

/-- `stripPre s pat` returns the remainder of `s` after the prefix `pat`,
or `none` when `pat` does not start `s`. -/
def stripPre : List Char → List Char → Option (List Char)
  | s, [] => some s
  | [], _ :: _ => none
  | c :: s, p :: ps => if c = p then stripPre s ps else none

/-- Python `str.replace`, scanning left to right and replacing
non-overlapping occurrences; the fuel argument (instantiated with the
string length, enough since every step consumes at least one character
for nonempty patterns) keeps the recursion structural. -/
def replaceFuel (pat rep : List Char) : Nat → List Char → List Char
  | 0, s => s
  | _ + 1, [] => []
  | fuel + 1, c :: rest =>
      match stripPre (c :: rest) pat with
      | some rem =>
          match pat with
          | [] => c :: replaceFuel pat rep fuel rest
          | _ :: _ => rep ++ replaceFuel pat rep fuel rem
      | none => c :: replaceFuel pat rep fuel rest

def pyReplace (s pat rep : String) : String :=
  ⟨replaceFuel pat.data rep.data s.data.length s.data⟩

/-- The date a snapshot filename parses to inside
`generate_weekly_comparisons`:
`datetime.strptime(f.replace("danbooru-", "").replace(".csv", ""), "%Y-%m-%d")`. -/
def snapshotDate (f : String) : Option Date :=
  strptimeYMD (pyReplace (pyReplace f "danbooru-" "") ".csv" "")

/-- The Monday filter of `generate_weekly_comparisons`: keep `(f, date)`
when the filename parses to a date falling on a Monday; the bare
`except` swallows any parse failure. -/
def mondayFiles (files : List String) : List (String × Date) :=
  files.filterMap (fun f =>
    match snapshotDate f with
    | some d => if dateWeekday d = 0 then some (f, d) else none
    | none => none)

/-- `generate_weekly_comparisons`: one entry per consecutive Monday pair,
tagged `weekly-{new_file}`, then reversed. -/
def generate_weekly_comparisons (fs : String → Option (List (List String)))
    (files : List String) (touhou_whitelist : List String) : List DataEntry :=
  let mf := mondayFiles files
  ((mf.zip (mf.drop 1)).map
    (fun p =>
      process_comparison fs p.1.1 p.2.1 touhou_whitelist
        (some ("weekly-" ++ p.2.1)))).reverse

/-- Lexicographic comparison of char lists by code point, as Python
compares strings. -/
def charListLE : List Char → List Char → Bool
  | [], _ => true
  | _ :: _, [] => false
  | a :: as₁, b :: bs₁ =>
      if a.toNat < b.toNat then true
      else if b.toNat < a.toNat then false
      else charListLE as₁ bs₁

def strLE (a b : String) : Bool := charListLE a.data b.data

/-- `f.endswith(suffix)`. -/
def strEndsWith (s suffix : String) : Bool :=
  (stripPre s.data.reverse suffix.data.reverse).isSome

/-- `get_sorted_files`: `os.listdir` raises `FileNotFoundError` when the
directory is absent (modelled by the `none` listing ↦ `Except.error`);
otherwise the `.csv` names sorted lexicographically. -/
def get_sorted_files (listing? : Option (List String)) :
    Except Unit (List String) :=
  match listing? with
  | none => Except.error ()
  | some names =>
      Except.ok ((names.filter (fun f => strEndsWith f ".csv")).mergeSort strLE)

/-- `str.strip()` with no argument strips ASCII whitespace. -/
def pyStrip (s : String) : String := ⟨pyStripChars s.data⟩

/-- `get_touhou_tags`: the file is `none` when absent, else its lines;
returns the set (as an insertion-ordered duplicate-free list) of
stripped nonempty lines, paired with whether the missing-file warning
was printed. -/
def get_touhou_tags (file? : Option (List String)) : List String × Bool :=
  match file? with
  | none => ([], true)
  | some lines =>
      (lines.foldl
        (fun acc line =>
          let tag := pyStrip line
          if tag ≠ "" ∧ ¬ acc.contains tag then acc ++ [tag] else acc) [],
       false)

/-! ## General lemmas about the embedding -/

theorem foldl_append_filterMap {α β : Type} (f : α → Option β) :
    ∀ (l : List α) (acc : List β),
      l.foldl (fun g p => g ++ (f p).toList) acc = acc ++ l.filterMap f
  | [], acc => by simp
  | a :: l, acc => by
    cases h : f a with
    | none => simp [h, foldl_append_filterMap f l acc]
    | some b => simp [h, foldl_append_filterMap f l (acc ++ [b])]

theorem calculate_growth_eq (old_tags new_tags : List (String × Int)) :
    calculate_growth old_tags new_tags =
      new_tags.filterMap (growthEntry old_tags) := by
  simpa [calculate_growth] using
    foldl_append_filterMap (growthEntry old_tags) new_tags []

theorem mem_calculate_growth {old_tags new_tags : List (String × Int)}
    {r : GrowthRecord} :
    r ∈ calculate_growth old_tags new_tags ↔
      ∃ p ∈ new_tags, growthEntry old_tags p = some r := by
  rw [calculate_growth_eq]; exact List.mem_filterMap

theorem growthEntry_eq_some {old_tags : List (String × Int)}
    {p : String × Int} {r : GrowthRecord} :
    growthEntry old_tags p = some r ↔
      ∃ oc, dictGet? old_tags p.1 = some oc ∧
        MIN_COUNT_THRESHOLD ≤ p.2 ∧ 0 < oc ∧
        r = ⟨p.1, oc, p.2, p.2 - oc,
          ((p.2 : ℚ) - (oc : ℚ)) / (oc : ℚ) * 100⟩ := by
  unfold growthEntry
  cases h : dictGet? old_tags p.1 with
  | none => simp
  | some oc =>
    by_cases hc : MIN_COUNT_THRESHOLD ≤ p.2 ∧ 0 < oc
    · simp [hc, eq_comm]
    · simp only [hc, if_false, Option.some.injEq]
      constructor
      · rintro ⟨⟩
      · rintro ⟨oc', hoc', h1, h2, -⟩
        cases hoc'
        exact absurd ⟨h1, h2⟩ hc

theorem val_eq_of_nodup_keys {d : List (String × Int)}
    (h : (d.map Prod.fst).Nodup) {t : String} {a b : Int}
    (ha : (t, a) ∈ d) (hb : (t, b) ∈ d) : a = b := by
  induction d with
  | nil => cases ha
  | cons q rest ih =>
    rw [List.map_cons, List.nodup_cons] at h
    rcases List.mem_cons.mp ha with ha' | ha' <;>
      rcases List.mem_cons.mp hb with hb' | hb'
    · rw [← ha'] at hb'; exact (Prod.mk.injEq .. ▸ hb').2.symm
    · exact absurd (List.mem_map.mpr ⟨(t, b), hb', by rw [← ha']⟩) h.1
    · exact absurd (List.mem_map.mpr ⟨(t, a), ha', by rw [← hb']⟩) h.1
    · exact ih h.2 ha' hb'

/-! ## C1 and C2: the growth calculator -/

/-- C1: for tables with unique keys (as Python dicts are) and any tag
present in `new_table` with count `new_count`, `calculate_growth` emits
a record for that tag iff the tag is in `old_table` with `old_count > 0`
and `new_count ≥ 50`; any such record carries exactly
`absolute_diff = new_count - old_count` and
`percent_diff = (new_count - old_count) / old_count * 100` (Python
floats modelled exactly in `ℚ`). -/
theorem calculate_growth_spec (old_tags new_tags : List (String × Int))
    (hnd : (new_tags.map Prod.fst).Nodup) (tag : String) (new_count : Int)
    (hmem : (tag, new_count) ∈ new_tags) :
    ((∃ r ∈ calculate_growth old_tags new_tags, r.tag = tag) ↔
      (∃ old_count, dictGet? old_tags tag = some old_count ∧ 0 < old_count) ∧
        50 ≤ new_count) ∧
    ∀ r ∈ calculate_growth old_tags new_tags, r.tag = tag →
      dictGet? old_tags tag = some r.old ∧ r.new = new_count ∧
        r.diff = new_count - r.old ∧
        r.percent = ((new_count : ℚ) - (r.old : ℚ)) / (r.old : ℚ) * 100 := by
  constructor
  · constructor
    · rintro ⟨r, hr, htag⟩
      obtain ⟨⟨pt, pc⟩, hp, hge⟩ := mem_calculate_growth.mp hr
      obtain ⟨oc, hoc, hmin, hpos, hrec⟩ := growthEntry_eq_some.mp hge
      subst hrec
      have hptag : pt = tag := htag
      subst hptag
      have hval : pc = new_count := val_eq_of_nodup_keys hnd hp hmem
      exact ⟨⟨oc, hoc, hpos⟩, by
        simpa [MIN_COUNT_THRESHOLD, hval] using hmin⟩
    · rintro ⟨⟨oc, hoc, hpos⟩, hmin⟩
      refine ⟨⟨tag, oc, new_count, new_count - oc,
        ((new_count : ℚ) - (oc : ℚ)) / (oc : ℚ) * 100⟩, ?_, rfl⟩
      exact mem_calculate_growth.mpr ⟨(tag, new_count), hmem,
        growthEntry_eq_some.mpr ⟨oc, hoc, by
          simpa [MIN_COUNT_THRESHOLD] using hmin, hpos, rfl⟩⟩
  · intro r hr htag
    obtain ⟨⟨pt, pc⟩, hp, hge⟩ := mem_calculate_growth.mp hr
    obtain ⟨oc, hoc, hmin, hpos, hrec⟩ := growthEntry_eq_some.mp hge
    subst hrec
    have hptag : pt = tag := htag
    subst hptag
    have hval : pc = new_count := val_eq_of_nodup_keys hnd hp hmem
    subst hval
    exact ⟨hoc, rfl, rfl, rfl⟩

theorem calculate_growth_spec_witness :
    ∃ r ∈ calculate_growth [("foo", 100)] [("foo", 150)], r.tag = "foo" :=
  (calculate_growth_spec [("foo", 100)] [("foo", 150)] (by decide) "foo" 150
    (by decide)).1.mpr ⟨⟨100, by decide, by decide⟩, by decide⟩

/-- C2: every record emitted by `calculate_growth` has `old_count > 0`,
so the divisor in the percent formula is a nonzero rational: the
division-by-zero branch is excluded structurally. -/
theorem calculate_growth_no_zero_divisor
    (old_tags new_tags : List (String × Int)) :
    ∀ r ∈ calculate_growth old_tags new_tags,
      0 < r.old ∧ (r.old : ℚ) ≠ 0 ∧
        r.percent = ((r.new : ℚ) - (r.old : ℚ)) / (r.old : ℚ) * 100 := by
  intro r hr
  obtain ⟨p, hp, hge⟩ := mem_calculate_growth.mp hr
  obtain ⟨oc, hoc, hmin, hpos, hrec⟩ := growthEntry_eq_some.mp hge
  subst hrec
  refine ⟨hpos, ?_, rfl⟩
  exact_mod_cast Int.ne_of_gt hpos

theorem calculate_growth_no_zero_divisor_witness :
    0 < (GrowthRecord.mk "a" 2 60 58 2900).old ∧
      ((GrowthRecord.mk "a" 2 60 58 2900).old : ℚ) ≠ 0 ∧
      (GrowthRecord.mk "a" 2 60 58 2900).percent =
        (((GrowthRecord.mk "a" 2 60 58 2900).new : ℚ) -
          ((GrowthRecord.mk "a" 2 60 58 2900).old : ℚ)) /
          ((GrowthRecord.mk "a" 2 60 58 2900).old : ℚ) * 100 :=
  calculate_growth_no_zero_divisor [("a", 2)] [("a", 60)] _ (by
    rw [calculate_growth_eq]
    simp only [List.filterMap_cons, List.filterMap_nil]
    norm_num [growthEntry, dictGet?, MIN_COUNT_THRESHOLD, List.find?])

/-! ## C3: the top-N selector -/

theorem top_n_length_le (records : List GrowthRecord) (k : SortKey) (n : Nat) :
    (top_n records k n).length ≤ n := by
  simp only [top_n, List.length_take]
  exact min_le_left _ _

theorem top_n_subset (records : List GrowthRecord) (k : SortKey) (n : Nat) :
    ∀ r ∈ top_n records k n, r ∈ records := fun _ hr =>
  (List.mem_insertionSort _).mp ((List.take_sublist _ _).mem hr)

theorem top_n_sorted (records : List GrowthRecord) (k : SortKey) (n : Nat) :
    (top_n records k n).Pairwise (fun a b => keyVal k b ≤ keyVal k a) :=
  List.Pairwise.sublist (List.take_sublist _ _)
    (List.sorted_insertionSort (keyRel k) records)

theorem insertionSort_filter_tied (k : SortKey) (records : List GrowthRecord)
    (v : ℚ) :
    (List.insertionSort (keyRel k) records).filter
        (fun r => decide (keyVal k r = v)) =
      records.filter (fun r => decide (keyVal k r = v)) := by
  set p : GrowthRecord → Bool := fun r => decide (keyVal k r = v) with hp
  have hsub :
      List.Sublist (records.filter p) (List.insertionSort (keyRel k) records) := by
    apply List.sublist_insertionSort
    · apply List.pairwise_of_forall_mem_list
      intro a ha b hb
      have ha' : keyVal k a = v := of_decide_eq_true (List.mem_filter.mp ha).2
      have hb' : keyVal k b = v := of_decide_eq_true (List.mem_filter.mp hb).2
      unfold keyRel
      rw [ha', hb']
    · exact List.filter_sublist records
  have heq : (records.filter p).filter p = records.filter p :=
    List.filter_eq_self.mpr fun a ha => (List.mem_filter.mp ha).2
  have hsub2 : List.Sublist (records.filter p)
      ((List.insertionSort (keyRel k) records).filter p) :=
    heq ▸ hsub.filter p
  have hperm : List.Perm ((List.insertionSort (keyRel k) records).filter p)
      (records.filter p) :=
    (List.perm_insertionSort (keyRel k) records).filter p
  exact (hsub2.eq_of_length hperm.length_eq.symm).symm

/-- Records tied on the sort key keep their relative input order in the
truncated output: the output filtered to one key value is a prefix of
the input filtered to that value. -/
theorem top_n_stable (records : List GrowthRecord) (k : SortKey) (n : Nat)
    (v : ℚ) :
    ∃ t, records.filter (fun r => decide (keyVal k r = v)) =
      (top_n records k n).filter (fun r => decide (keyVal k r = v)) ++ t := by
  refine ⟨((List.insertionSort (keyRel k) records).drop n).filter
    (fun r => decide (keyVal k r = v)), ?_⟩
  rw [← insertionSort_filter_tied k records v, top_n, ← List.filter_append,
    List.take_append_drop]

/-- C3: `top_n` (the expression
`sorted(raw_growth, key=..., reverse=True)[:TOP_COUNT]`) returns at most
20 records, all drawn from its input, in non-increasing key order, and
records with equal key values appear in their original relative input
order (the output filtered to any key value is a prefix of the input so
filtered). -/
theorem top_n_spec (records : List GrowthRecord) (k : SortKey) :
    (top_n records k TOP_COUNT).length ≤ 20 ∧
    (∀ r ∈ top_n records k TOP_COUNT, r ∈ records) ∧
    (top_n records k TOP_COUNT).Pairwise
      (fun a b => keyVal k b ≤ keyVal k a) ∧
    ∀ v : ℚ, ∃ t, records.filter (fun r => decide (keyVal k r = v)) =
      (top_n records k TOP_COUNT).filter (fun r => decide (keyVal k r = v))
        ++ t :=
  ⟨top_n_length_le records k TOP_COUNT, top_n_subset records k TOP_COUNT,
    top_n_sorted records k TOP_COUNT, top_n_stable records k TOP_COUNT⟩

theorem top_n_spec_witness :
    GrowthRecord.mk "a" 1 60 59 5900 ∈
      [GrowthRecord.mk "a" 1 60 59 5900, GrowthRecord.mk "b" 1 70 69 6900] :=
  (top_n_spec
      [GrowthRecord.mk "a" 1 60 59 5900, GrowthRecord.mk "b" 1 70 69 6900]
      .diff).2.1
    (GrowthRecord.mk "a" 1 60 59 5900)
    (by norm_num [top_n, List.insertionSort, List.orderedInsert, keyRel, keyVal,
      TOP_COUNT, List.take_succ_cons, List.take_nil])

/-! ## Lemmas about the tag-table builder -/

theorem find?_overwrite_self (k : String) (v : Int) :
    ∀ d : List (String × Int),
      (d.map (fun p => if p.1 == k then (k, v) else p)).find?
          (fun p => p.1 == k) =
        (d.find? (fun p => p.1 == k)).map (fun _ => (k, v))
  | [] => rfl
  | q :: d => by
    by_cases h : q.1 = k
    · rw [List.map_cons, List.find?_cons_of_pos _ (by simp [h]),
        List.find?_cons_of_pos _ (by simp [h])]
      simp [h]
    · rw [List.map_cons, List.find?_cons_of_neg _ (by simp [h]),
        List.find?_cons_of_neg _ (by simp [h])]
      exact find?_overwrite_self k v d

theorem find?_overwrite_ne (k : String) (v : Int) (t : String) (hne : t ≠ k) :
    ∀ d : List (String × Int),
      (d.map (fun p => if p.1 == k then (k, v) else p)).find?
          (fun p => p.1 == t) = d.find? (fun p => p.1 == t)
  | [] => rfl
  | q :: d => by
    by_cases h : q.1 = k
    · rw [List.map_cons, List.find?_cons_of_neg _ (by simp [h, Ne.symm hne]),
        List.find?_cons_of_neg _ (by simp [h, Ne.symm hne])]
      exact find?_overwrite_ne k v t hne d
    · by_cases h2 : q.1 = t
      · rw [List.map_cons, List.find?_cons_of_pos _ (by simp [h, h2, hne]),
          List.find?_cons_of_pos _ (by simp [h2])]
        simp [h]
      · rw [List.map_cons, List.find?_cons_of_neg _ (by simp [h, h2]),
          List.find?_cons_of_neg _ (by simp [h2])]
        exact find?_overwrite_ne k v t hne d

theorem dictGet?_dictInsert (d : List (String × Int)) (k : String) (v : Int)
    (t : String) :
    dictGet? (dictInsert d k v) t = if t = k then some v else dictGet? d t := by
  unfold dictGet? dictInsert
  by_cases hmem : d.any (fun p => p.1 == k)
  · rw [if_pos hmem]
    by_cases ht : t = k
    · subst ht
      rw [if_pos rfl, find?_overwrite_self]
      obtain ⟨x, hx, hpx⟩ := List.any_eq_true.mp hmem
      cases hf : d.find? (fun p => p.1 == t) with
      | none => rw [List.find?_eq_none] at hf; exact absurd hpx (hf x hx)
      | some q => simp
    · rw [if_neg ht, find?_overwrite_ne k v t ht]
  · rw [if_neg hmem, List.find?_append]
    by_cases ht : t = k
    · subst ht
      have hnone : d.find? (fun p => p.1 == t) = none := by
        rw [List.find?_eq_none]
        intro x hx hpx
        exact hmem (List.any_eq_true.mpr ⟨x, hx, hpx⟩)
      rw [if_pos rfl, hnone, List.find?_cons_of_pos _ (by simp)]
      simp
    · rw [if_neg ht]
      have hsingle : List.find? (fun p => p.1 == t) [(k, v)] = none := by
        rw [List.find?_cons_of_neg _ (by simp [Ne.symm ht])]
        rfl
      rw [hsingle]
      cases hf : d.find? (fun p => p.1 == t) with
      | some q => simp
      | none => simp

theorem mem_dictInsert {d : List (String × Int)} {k : String} {v : Int}
    {q : String × Int} (h : q ∈ dictInsert d k v) : q = (k, v) ∨ q ∈ d := by
  unfold dictInsert at h
  by_cases hmem : d.any (fun p => p.1 == k)
  · rw [if_pos hmem] at h
    obtain ⟨p, hp, hq⟩ := List.mem_map.mp h
    by_cases hk : p.1 = k
    · rw [if_pos (by simpa using hk)] at hq
      exact Or.inl hq.symm
    · rw [if_neg (by simpa using hk)] at hq
      exact Or.inr (hq ▸ hp)
  · rw [if_neg hmem] at h
    rcases List.mem_append.mp h with h1 | h1
    · exact Or.inr h1
    · exact Or.inl (List.mem_singleton.mp h1)

theorem dictGet?_foldl_readTagsStep (tid : Option Int)
    (al : Option (List String)) (t : String) :
    ∀ (rows : List (List String)) (acc : List (String × Int)),
      dictGet? (rows.foldl (readTagsStep tid al) acc) t =
        match (rows.filterMap (fun row => tryRow row tid al)).reverse.find?
            (fun p => p.1 == t) with
        | some p => some p.2
        | none => dictGet? acc t
  | [], acc => by simp
  | row :: rows, acc => by
    rw [List.foldl_cons,
      dictGet?_foldl_readTagsStep tid al t rows (readTagsStep tid al acc row)]
    cases htr : tryRow row tid al with
    | none => simp [readTagsStep, htr, List.filterMap_cons]
    | some p =>
      simp only [List.filterMap_cons, htr, List.reverse_cons, List.find?_append]
      cases hf : (rows.filterMap fun row => tryRow row tid al).reverse.find?
          (fun p => p.1 == t) with
      | some q => simp [hf, Option.or]
      | none =>
        by_cases hpt : p.1 = t
        · simp [hf, Option.or, List.find?, hpt, readTagsStep, htr,
            dictGet?_dictInsert]
        · have hb : (p.1 == t) = false := beq_eq_false_iff_ne.mpr hpt
          simp [hf, Option.or, List.find?, hb, readTagsStep, htr,
            dictGet?_dictInsert, Ne.symm hpt]

theorem dictGet?_read_tags (rows : List (List String)) (tid : Option Int)
    (al : Option (List String)) (t : String) :
    dictGet? (read_tags (some rows) tid al) t =
      ((rows.filterMap (fun row => tryRow row tid al)).reverse.find?
        (fun p => p.1 == t)).map Prod.snd := by
  show dictGet? (rows.foldl (readTagsStep tid al) []) t = _
  rw [dictGet?_foldl_readTagsStep]
  cases hf : (rows.filterMap fun row => tryRow row tid al).reverse.find?
      (fun p => p.1 == t) with
  | some q => simp
  | none => simp [dictGet?]

theorem mem_foldl_readTagsStep (tid : Option Int) (al : Option (List String)) :
    ∀ (rows : List (List String)) (acc : List (String × Int))
      (q : String × Int), q ∈ rows.foldl (readTagsStep tid al) acc →
        q ∈ acc ∨ ∃ row ∈ rows, tryRow row tid al = some q
  | [], _, _ => fun h => Or.inl h
  | row :: rows, acc, q => fun h => by
    rcases mem_foldl_readTagsStep tid al rows (readTagsStep tid al acc row) q h
      with h1 | ⟨r, hr, htr⟩
    · unfold readTagsStep at h1
      revert h1
      cases htr2 : tryRow row tid al with
      | none => exact fun h1 => Or.inl h1
      | some p =>
        intro h1
        rcases mem_dictInsert h1 with he | hm
        · exact Or.inr ⟨row, List.mem_cons_self row rows, by rw [htr2, he]⟩
        · exact Or.inl hm
    · exact Or.inr ⟨r, List.mem_cons_of_mem _ hr, htr⟩

theorem mem_read_tags {rows : List (List String)} {tid : Option Int}
    {al : Option (List String)} {q : String × Int}
    (h : q ∈ read_tags (some rows) tid al) :
    ∃ row ∈ rows, tryRow row tid al = some q := by
  rcases mem_foldl_readTagsStep tid al rows [] q h with h1 | h2
  · cases h1
  · exact h2

theorem rowAssign_spec {row : List String} {t : String} {c : Int}
    (h : rowAssign row = some (t, c)) :
    row[0]? = some t ∧ ∃ s, row[2]? = some s ∧ pyInt s = some c := by
  unfold rowAssign at h
  split at h
  · rename_i t0 s heq0 heq2
    obtain ⟨c0, hc0, hpair⟩ := Option.map_eq_some'.mp h
    cases hpair
    exact ⟨heq0, s, heq2, hc0⟩
  · cases h

theorem rowAfterAllow_spec {row : List String} {al : Option (List String)}
    {t : String} {c : Int} (h : rowAfterAllow row al = some (t, c)) :
    rowAssign row = some (t, c) ∧
      ∀ allowed, al = some allowed → allowed.contains t := by
  cases al with
  | none => exact ⟨h, by rintro _ ⟨⟩⟩
  | some allowed =>
    rw [show rowAfterAllow row (some allowed) =
        (match row[0]? with
        | some t => if allowed.contains t then rowAssign row else none
        | none => none) from rfl] at h
    split at h
    · rename_i t0 heq0
      split at h
      · rename_i hc
        have ht0 : t0 = t := by
          have h0' := (rowAssign_spec h).1
          rw [heq0] at h0'
          exact Option.some.inj h0'
        exact ⟨h, by rintro a ⟨⟩; rwa [← ht0]⟩
      · cases h
    · cases h

theorem tryRow_spec {row : List String} {tid : Option Int}
    {al : Option (List String)} {t : String} {c : Int}
    (h : tryRow row tid al = some (t, c)) :
    rowAssign row = some (t, c) ∧
      (∀ allowed, al = some allowed → allowed.contains t) ∧
      ∀ i, tid = some i → ∃ s1, row[1]? = some s1 ∧ pyInt s1 = some i := by
  cases tid with
  | none =>
    obtain ⟨h1, h2⟩ := rowAfterAllow_spec h
    exact ⟨h1, h2, by rintro _ ⟨⟩⟩
  | some i =>
    rw [show tryRow row (some i) al =
        (match row[1]? with
        | some s =>
            match pyInt s with
            | some v => if v = i then rowAfterAllow row al else none
            | none => none
        | none => none) from rfl] at h
    split at h
    · rename_i s1 heq1
      split at h
      · rename_i v heq2
        split at h
        · rename_i hv
          subst hv
          obtain ⟨ha1, ha2⟩ := rowAfterAllow_spec h
          exact ⟨ha1, ha2, by rintro j ⟨⟩; exact ⟨s1, heq1, heq2⟩⟩
        · cases h
      · cases h
    · cases h

/-- Every table entry originates in a row of the file: its tag is the
row's first field, its count is the parsed third field, and when a
category-id filter is active the row's second field parses to that id. -/
theorem read_tags_provenance (rows : List (List String)) (tid : Option Int)
    (al : Option (List String)) :
    ∀ p ∈ read_tags (some rows) tid al,
      ∃ row ∈ rows, row[0]? = some p.1 ∧
        (∃ s, row[2]? = some s ∧ pyInt s = some p.2) ∧
        ∀ i, tid = some i → ∃ s1, row[1]? = some s1 ∧ pyInt s1 = some i := by
  intro p hp
  obtain ⟨row, hrow, htr⟩ := mem_read_tags hp
  obtain ⟨hassign, _, hcat⟩ := tryRow_spec htr
  obtain ⟨h0, hs⟩ := rowAssign_spec hassign
  exact ⟨row, hrow, h0, hs, hcat⟩

theorem mem_of_dictGet? {d : List (String × Int)} {k : String} {v : Int}
    (h : dictGet? d k = some v) : ∃ q ∈ d, q.2 = v := by
  unfold dictGet? at h
  cases hf : d.find? (fun p => p.1 == k) with
  | none => rw [hf] at h; cases h
  | some q =>
    rw [hf] at h
    exact ⟨q, List.mem_of_find?_eq_some hf, Option.some.inj h⟩

theorem read_tags_values_nonneg {rows : List (List String)} {tid : Option Int}
    {al : Option (List String)}
    (h : ∀ row ∈ rows, ∀ s, row[2]? = some s → ∀ v, pyInt s = some v → 0 ≤ v) :
    ∀ p ∈ read_tags (some rows) tid al, 0 ≤ p.2 := by
  intro p hp
  obtain ⟨row, hrow, -, ⟨s, hs, hpi⟩, -⟩ :=
    read_tags_provenance rows tid al p hp
  exact h row hrow s hs p.2 hpi

/-! ## C6, C8 and C10: row guards, count signs, duplicate tags -/

/-- C6 counterexample: with no category-id filter (here the unfiltered
mode, as the `all` category uses), `int(row[1])` is never evaluated, so
the row `["tag1", "x", "100"]` contributes an entry even though its
category field `"x"` does not parse as an integer. -/
theorem read_tags_unparsed_category_contributes :
    pyInt "x" = none ∧
      read_tags (some [["tag1", "x", "100"]]) none none = [("tag1", 100)] :=
  ⟨by decide, by decide⟩

/-- C6 amended: every entry of the table comes from a row whose first
field is the tag and whose third field parses (by Python `int()`) to the
count; the second field is required to parse only when a category-id
filter is active, in which case it parses to the filter's id. -/
theorem read_tags_entry_guards (rows : List (List String)) (tid : Option Int)
    (al : Option (List String)) :
    ∀ p ∈ read_tags (some rows) tid al,
      ∃ row ∈ rows, row[0]? = some p.1 ∧
        (∃ s, row[2]? = some s ∧ pyInt s = some p.2) ∧
        ∀ i, tid = some i → ∃ s1, row[1]? = some s1 ∧ pyInt s1 = some i :=
  read_tags_provenance rows tid al

theorem read_tags_entry_guards_witness :
    ∃ row ∈ [["tag1", "x", "100"]], row[0]? = some "tag1" ∧
      (∃ s, row[2]? = some s ∧ pyInt s = some 100) ∧
      ∀ i, (none : Option Int) = some i →
        ∃ s1, row[1]? = some s1 ∧ pyInt s1 = some i :=
  read_tags_entry_guards [["tag1", "x", "100"]] none none ("tag1", 100)
    (by decide)

/-- C8 counterexample: Python `int()` parses negative numerals, so a
snapshot row carrying `"-5"` produces a table entry with a negative
count — the table does not map tags only to non-negative integers. -/
theorem read_tags_negative_count :
    read_tags (some [["t", "0", "-5"]]) none none = [("t", -5)] ∧
      (-5 : Int) < 0 :=
  ⟨by decide, by decide⟩

/-- C8 amended: table values are exactly parsed post counts, so when
every parseable count field of both snapshot files is non-negative, both
tables map only to non-negative counts, and every growth record built
from them has `old_count ≥ 0` and `new_count ≥ 0`. -/
theorem read_tags_growth_nonneg (rows_old rows_new : List (List String))
    (tid : Option Int) (al : Option (List String))
    (hold : ∀ row ∈ rows_old, ∀ s, row[2]? = some s →
      ∀ v, pyInt s = some v → 0 ≤ v)
    (hnew : ∀ row ∈ rows_new, ∀ s, row[2]? = some s →
      ∀ v, pyInt s = some v → 0 ≤ v) :
    (∀ p ∈ read_tags (some rows_old) tid al, 0 ≤ p.2) ∧
    (∀ p ∈ read_tags (some rows_new) tid al, 0 ≤ p.2) ∧
    ∀ r ∈ calculate_growth (read_tags (some rows_old) tid al)
        (read_tags (some rows_new) tid al), 0 ≤ r.old ∧ 0 ≤ r.new := by
  refine ⟨read_tags_values_nonneg hold, read_tags_values_nonneg hnew, ?_⟩
  intro r hr
  obtain ⟨p, hp, hge⟩ := mem_calculate_growth.mp hr
  obtain ⟨oc, hoc, hmin, hpos, hrec⟩ := growthEntry_eq_some.mp hge
  subst hrec
  constructor
  · obtain ⟨q, hq, hq2⟩ := mem_of_dictGet? hoc
    exact hq2 ▸ read_tags_values_nonneg hold q hq
  · exact read_tags_values_nonneg hnew p hp

theorem read_tags_growth_nonneg_witness :
    (0 : Int) ≤ (("a", (60 : Int)) : String × Int).2 :=
  (read_tags_growth_nonneg [["a", "0", "2"]] [["a", "0", "60"]] none none
    (by
      intro row hrow s hs v hv
      rw [List.mem_singleton] at hrow
      subst hrow
      rw [show (["a", "0", "2"] : List String)[2]? = some "2" from by decide]
        at hs
      cases hs
      rw [show pyInt "2" = some 2 from by decide] at hv
      cases hv
      decide)
    (by
      intro row hrow s hs v hv
      rw [List.mem_singleton] at hrow
      subst hrow
      rw [show (["a", "0", "60"] : List String)[2]? = some "60" from by decide]
        at hs
      cases hs
      rw [show pyInt "60" = some 60 from by decide] at hv
      cases hv
      decide)).2.1 ("a", 60) (by decide)

/-- C10: when a later row of the file produces an assignment for the
same tag, the Python dict assignment overwrites the earlier value: the
table maps the tag to the count of the last contributing row. -/
theorem read_tags_last_row_wins (rows1 rows2 : List (List String))
    (row : List String) (tid : Option Int) (al : Option (List String))
    (t : String) (c : Int)
    (hrow : tryRow row tid al = some (t, c))
    (hafter : ∀ row2 ∈ rows2, ∀ c2, tryRow row2 tid al ≠ some (t, c2)) :
    dictGet? (read_tags (some (rows1 ++ row :: rows2)) tid al) t = some c := by
  rw [dictGet?_read_tags, List.filterMap_append, List.filterMap_cons, hrow,
    List.reverse_append, List.reverse_cons, List.find?_append,
    List.find?_append]
  have h2 : (rows2.filterMap fun r => tryRow r tid al).reverse.find?
      (fun p => p.1 == t) = none := by
    rw [List.find?_eq_none]
    intro x hx hbeq
    rw [List.mem_reverse] at hx
    obtain ⟨row2, hrow2, htr⟩ := List.mem_filterMap.mp hx
    have hx1 : x.1 = t := by simpa using hbeq
    exact hafter row2 hrow2 x.2 (by rwa [← hx1, Prod.mk.eta])
  rw [h2, List.find?_cons_of_pos _ (by simp)]
  simp

theorem read_tags_last_row_wins_witness :
    dictGet? (read_tags
      (some ([["a", "0", "1"]] ++ ["a", "0", "2"] :: [["b", "0", "3"]]))
      none none) "a" = some 2 :=
  read_tags_last_row_wins [["a", "0", "1"]] [["b", "0", "3"]] ["a", "0", "2"]
    none none "a" 2 (by decide)
    (by
      intro row2 h2 c2 hc
      rw [List.mem_singleton] at h2
      subst h2
      rw [show tryRow ["b", "0", "3"] none none = some ("b", 3) from by decide]
        at hc
      simp at hc)

/-! ## C4 and C5: the daily and weekly series -/

theorem generate_daily_length (fs : String → Option (List (List String)))
    (files : List String) (wl : List String) :
    (generate_daily_comparisons fs files wl).length = files.length - 1 := by
  simp only [generate_daily_comparisons, List.length_reverse, List.length_map,
    List.length_zip, List.length_drop]
  omega

/-- C4: the daily series has one record per consecutive pair of the
snapshot list, in reversed order — the record built from
`(files[i], files[i+1])` sits at output index `length - 2 - i` — and a
list of fewer than two snapshots yields the empty series (total
function, no failure path). -/
theorem generate_daily_spec (fs : String → Option (List (List String)))
    (files : List String) (wl : List String) :
    (generate_daily_comparisons fs files wl).length = files.length - 1 ∧
    (files.length < 2 → generate_daily_comparisons fs files wl = []) ∧
    ∀ (i : Nat) (a b : String), files[i]? = some a → files[i+1]? = some b →
      (generate_daily_comparisons fs files wl)[files.length - 2 - i]? =
        some (process_comparison fs a b wl none) := by
  refine ⟨generate_daily_length fs files wl, ?_, ?_⟩
  · intro h
    have hl := generate_daily_length fs files wl
    exact List.eq_nil_of_length_eq_zero (by omega)
  · intro i a b ha hb
    have hi1 : i + 1 < files.length := (List.getElem?_eq_some.mp hb).1
    rw [generate_daily_comparisons]
    have hlen : ((files.zip (files.drop 1)).map
        (fun p => process_comparison fs p.1 p.2 wl none)).length =
        files.length - 1 := by
      simp only [List.length_map, List.length_zip, List.length_drop]
      omega
    rw [List.getElem?_reverse (by rw [hlen]; omega), hlen]
    have hidx : files.length - 1 - 1 - (files.length - 2 - i) = i := by omega
    rw [hidx, List.getElem?_map]
    have hzip : (files.zip (files.drop 1))[i]? = some (a, b) :=
      List.getElem?_zip_eq_some.mpr
        ⟨ha, by rw [List.getElem?_drop, Nat.add_comm]; exact hb⟩
    rw [hzip]
    rfl

theorem generate_daily_spec_witness :
    (generate_daily_comparisons (fun _ => none) ["a.csv", "b.csv", "c.csv"]
      [])[1]? =
      some (process_comparison (fun _ => none) "a.csv" "b.csv" [] none) :=
  (generate_daily_spec (fun _ => none) ["a.csv", "b.csv", "c.csv"] []).2.2
    0 "a.csv" "b.csv" (by decide) (by decide)

theorem mondayFiles_sound (files : List String) :
    ∀ p ∈ mondayFiles files,
      p.1 ∈ files ∧ snapshotDate p.1 = some p.2 ∧ dateWeekday p.2 = 0 := by
  intro p hp
  obtain ⟨f, hf, hmf⟩ := List.mem_filterMap.mp hp
  split at hmf
  · rename_i d hsd
    split at hmf
    · rename_i hw
      cases hmf
      exact ⟨hf, hsd, hw⟩
    · cases hmf
  · cases hmf

theorem mondayFiles_complete (files : List String) :
    ∀ f ∈ files, ∀ d, snapshotDate f = some d → dateWeekday d = 0 →
      (f, d) ∈ mondayFiles files := by
  intro f hf d hsd hw
  exact List.mem_filterMap.mpr ⟨f, hf, by simp only [hsd]; rw [if_pos hw]⟩

theorem generate_weekly_length (fs : String → Option (List (List String)))
    (files : List String) (wl : List String) :
    (generate_weekly_comparisons fs files wl).length =
      (mondayFiles files).length - 1 := by
  simp only [generate_weekly_comparisons, List.length_reverse,
    List.length_map, List.length_zip, List.length_drop]
  omega

/-- C5: the weekly series keeps exactly the snapshots whose identifier
(after stripping the `danbooru-` and `.csv` decorations) parses to a
Monday — parse failures are silently discarded — and emits one record
per consecutive Monday pair, reversed, whose identifier is the new
file's identifier prefixed with `weekly-`; fewer than two Mondays give
the empty series. -/
theorem generate_weekly_spec (fs : String → Option (List (List String)))
    (files : List String) (wl : List String) :
    (∀ p ∈ mondayFiles files,
      p.1 ∈ files ∧ snapshotDate p.1 = some p.2 ∧ dateWeekday p.2 = 0) ∧
    (∀ f ∈ files, ∀ d, snapshotDate f = some d → dateWeekday d = 0 →
      (f, d) ∈ mondayFiles files) ∧
    (generate_weekly_comparisons fs files wl).length =
      (mondayFiles files).length - 1 ∧
    ((mondayFiles files).length < 2 →
      generate_weekly_comparisons fs files wl = []) ∧
    ∀ (i : Nat) (a b : String × Date),
      (mondayFiles files)[i]? = some a →
      (mondayFiles files)[i+1]? = some b →
      (generate_weekly_comparisons fs files
          wl)[(mondayFiles files).length - 2 - i]? =
          some (process_comparison fs a.1 b.1 wl (some ("weekly-" ++ b.1))) ∧
        (process_comparison fs a.1 b.1 wl (some ("weekly-" ++ b.1))).id =
          "weekly-" ++ b.1 := by
  refine ⟨mondayFiles_sound files, mondayFiles_complete files,
    generate_weekly_length fs files wl, ?_, ?_⟩
  · intro h
    have hl := generate_weekly_length fs files wl
    exact List.eq_nil_of_length_eq_zero (by omega)
  · intro i a b ha hb
    have hi1 : i + 1 < (mondayFiles files).length :=
      (List.getElem?_eq_some.mp hb).1
    constructor
    · rw [generate_weekly_comparisons]
      have hlen : (((mondayFiles files).zip ((mondayFiles files).drop 1)).map
          (fun p => process_comparison fs p.1.1 p.2.1 wl
            (some ("weekly-" ++ p.2.1)))).length =
          (mondayFiles files).length - 1 := by
        simp only [List.length_map, List.length_zip, List.length_drop]
        omega
      rw [List.getElem?_reverse (by rw [hlen]; omega), hlen]
      have hidx : (mondayFiles files).length - 1 - 1 -
          ((mondayFiles files).length - 2 - i) = i := by omega
      rw [hidx, List.getElem?_map]
      have hzip : ((mondayFiles files).zip ((mondayFiles files).drop 1))[i]? =
          some (a, b) :=
        List.getElem?_zip_eq_some.mpr
          ⟨ha, by rw [List.getElem?_drop, Nat.add_comm]; exact hb⟩
      rw [hzip]
      rfl
    · have hne : ("weekly-" ++ b.1) ≠ "" := fun h => by
        have h2 := congrArg String.length h
        rw [String.length_append,
          show ("weekly-" : String).length = 7 from rfl,
          show ("" : String).length = 0 from rfl] at h2
        exact absurd h2 (by omega)
      simp [process_comparison, hne]

theorem generate_weekly_spec_witness :
    (generate_weekly_comparisons (fun _ => none)
      ["2024-01-01.csv", "2024-01-02.csv", "2024-01-08.csv",
        "2024-01-15.csv"] [])[1]? =
      some (process_comparison (fun _ => none) "2024-01-01.csv"
        "2024-01-08.csv" [] (some ("weekly-" ++ "2024-01-08.csv"))) ∧
    (process_comparison (fun _ => none) "2024-01-01.csv" "2024-01-08.csv" []
        (some ("weekly-" ++ "2024-01-08.csv"))).id =
      "weekly-" ++ "2024-01-08.csv" :=
  (generate_weekly_spec (fun _ => none)
    ["2024-01-01.csv", "2024-01-02.csv", "2024-01-08.csv", "2024-01-15.csv"]
    []).2.2.2.2 0 ("2024-01-01.csv", ⟨2024, 1, 1⟩)
    ("2024-01-08.csv", ⟨2024, 1, 8⟩) (by decide) (by decide)

/-! ## C7: missing directory / missing allow-list file -/

/-- C7 counterexample: `get_sorted_files` calls `os.listdir` with no
exception handler, so an absent snapshot directory raises
`FileNotFoundError` (modelled as `Except.error`) instead of producing an
empty sequence.  (The program only avoids the crash because `main`
checks `os.path.exists(TAGS_DIR)` before calling it.) -/
theorem get_sorted_files_absent_raises :
    get_sorted_files none = Except.error () := rfl

/-- C7 amended: on an absent directory `get_sorted_files` propagates the
`os.listdir` error rather than returning an empty sequence; on a present
directory it always succeeds.  The allow-list half of the claim holds:
an absent allow-list file yields the empty set together with the printed
warning, and a present file never fails and never warns. -/
theorem missing_inputs_spec :
    get_sorted_files none = Except.error () ∧
    (∀ listing, ∃ r, get_sorted_files (some listing) = Except.ok r) ∧
    get_touhou_tags none = ([], true) ∧
    ∀ lines, (get_touhou_tags (some lines)).2 = false :=
  ⟨rfl, fun _ => ⟨_, rfl⟩, rfl, fun _ => rfl⟩

/-! ## C9: the comparison assembler -/

/-- C9: a comparison record's stats mapping has exactly the six keys
`general, artist, series, character, all, touhou` (the last is the
spec's "allow-listed" pseudo-category) in that order, each category
holding a percent-ranked and a diff-ranked list of at most 20 records
sorted by the respective key; the label is
`"{old display name} to {new display name}"` with `os.path.splitext`
stripping the extension, and the identifier is the new snapshot's
filename unless a (nonempty) override is supplied. -/
theorem process_comparison_spec (fs : String → Option (List (List String)))
    (old_filename new_filename : String) (wl : List String)
    (entry_id : Option String) :
    (process_comparison fs old_filename new_filename wl entry_id).stats.map
        Prod.fst = ["general", "artist", "series", "character", "all",
          "touhou"] ∧
    (process_comparison fs old_filename new_filename wl entry_id).date =
      get_display_name old_filename ++ " to " ++
        get_display_name new_filename ∧
    (entry_id = none →
      (process_comparison fs old_filename new_filename wl entry_id).id =
        new_filename) ∧
    (∀ s, s ≠ "" → entry_id = some s →
      (process_comparison fs old_filename new_filename wl entry_id).id = s) ∧
    ∀ st ∈ (process_comparison fs old_filename new_filename wl entry_id).stats,
      st.2.percent.length ≤ 20 ∧ st.2.diff.length ≤ 20 ∧
      st.2.percent.Pairwise (fun a b => b.percent ≤ a.percent) ∧
      st.2.diff.Pairwise (fun a b => b.diff ≤ a.diff) := by
  refine ⟨?_, rfl, ?_, ?_, ?_⟩
  · simp [process_comparison, types_to_process, TAG_TYPES]
  · rintro rfl; rfl
  · rintro s hs rfl
    simp [process_comparison, hs]
  · intro st hst
    simp only [process_comparison, List.mem_map] at hst
    obtain ⟨t, ht, hrec⟩ := hst
    subst hrec
    refine ⟨top_n_length_le _ _ _, top_n_length_le _ _ _, ?_, ?_⟩
    · exact top_n_sorted _ .percent _
    · refine (top_n_sorted _ .diff _).imp (fun h => ?_)
      have h' : ((_ : Int) : ℚ) ≤ ((_ : Int) : ℚ) := h
      exact_mod_cast h'

theorem process_comparison_spec_witness :
    (process_comparison (fun _ => none) "a.csv" "b.csv" []
      (some "weekly-b.csv")).id = "weekly-b.csv" :=
  (process_comparison_spec (fun _ => none) "a.csv" "b.csv" []
    (some "weekly-b.csv")).2.2.2.1 "weekly-b.csv" (by decide) rfl

end DanbooruTrends
